import Mathlib

/-!
Shallow embedding of `plugins/ruby-on-rails/scripts/validate_skills.py`.

The script is a structural linter for `skills/` folders: it parses the
frontmatter block of each folder's `SKILL.md`, checks naming rules and
cross-folder uniqueness, extracts relative markdown links and checks that
each one stays inside the folder and exists.

Modelling conventions:
- Python strings are Lean `String`s; most character-level work is done on
  `List Char` (the `.data` field) so that proofs are ordinary list lemmas.
- `str.strip()` is modelled as trimming `Char.isWhitespace` characters at
  both ends (the Python version also trims a few rarer unicode whitespace
  code points; no claim depends on those).
- `str.splitlines()` is modelled as splitting on the line separators
  `\n`, `\r\n` and `\r` (Python also treats a few rare unicode separators
  as line breaks; no claim depends on those).
- The filesystem is modelled explicitly: absolute paths are segment lists
  (`List String`), `Path.resolve()` is segment normalisation (symbolic
  links are assumed absent), and existence is membership in the list of
  existing paths carried by the modelled filesystem state.
-/

/-! ## Character-level string helpers -/

/-- Trim characters satisfying `p` from both ends of a character list
(the common shape of Python's `str.strip(...)`). -/
def trimEnds (p : Char → Bool) (cs : List Char) : List Char :=
  ((cs.dropWhile p).reverse.dropWhile p).reverse

/-- Whitespace trimming on character lists: `str.strip()`. -/
def stripWs (cs : List Char) : List Char := trimEnds Char.isWhitespace cs

/-- `str.strip()` on strings. -/
def pyStrip (s : String) : String := ⟨stripWs s.data⟩

/-- A quote character: double quote or single quote (the argument of
Python's `.strip("\x22\x27")` in `parse_frontmatter`). -/
def isQuoteChar (c : Char) : Bool := c = '"' || c = Char.ofNat 39

/-- `value.strip("\x22\x27")`: remove all leading and trailing quote
characters (of either kind, in any mixture). -/
def stripQuotesL (cs : List Char) : List Char := trimEnds isQuoteChar cs

/-- The quote handling claimed by the spec sentence, for comparison with
`stripQuotesL` (which is the source's behaviour): remove exactly ONE
layer of surrounding quote characters, and only when the two ends carry
the same quote character. -/
def stripOneMatchingQuoteLayer (cs : List Char) : List Char :=
  if decide (2 ≤ cs.length) && (cs.head? == cs.getLast?)
      && (match cs.head? with
          | some c => isQuoteChar c
          | none => false) then
    cs.tail.dropLast
  else cs

/-- String version of `stripQuotesL`. -/
def stripQuotes (s : String) : String := ⟨stripQuotesL s.data⟩

/-- `line.split(":", 1)` on character lists: the part before the first
colon, and - when a colon is present - the part after it.  A `none`
second component models `":" not in line`. -/
def split1Colon : List Char → List Char × Option (List Char)
  | [] => ([], none)
  | c :: cs =>
    if c = ':' then ([], some cs)
    else
      let r := split1Colon cs
      (c :: r.1, r.2)

/-- Collapse the two-character separator `\r\n` to `\n`, so that line
splitting can treat every separator as a single character (Python's
`splitlines` treats `\r\n` as one separator). -/
def normalizeNewlines : List Char → List Char
  | [] => []
  | '\r' :: '\n' :: cs => '\n' :: normalizeNewlines cs
  | c :: cs => c :: normalizeNewlines cs

/-- One step of `str.splitlines()` on separator-normalised text:
accumulate the current line (in reverse) until a separator or the end of
the text; a trailing separator does not open an empty final line. -/
def splitlinesGo (acc : List Char) : List Char → List (List Char)
  | [] => [acc.reverse]
  | c :: cs =>
    if c = '\n' || c = '\r' then
      acc.reverse :: (if cs.isEmpty then [] else splitlinesGo [] cs)
    else splitlinesGo (c :: acc) cs

/-- `str.splitlines()` on character lists; the empty text has no lines. -/
def splitlinesL (cs : List Char) : List (List Char) :=
  if cs.isEmpty then [] else splitlinesGo [] (normalizeNewlines cs)

/-- `text.splitlines()` on strings. -/
def pySplitlines (text : String) : List String :=
  (splitlinesL text.data).map (fun cs => ⟨cs⟩)

/-! ## Frontmatter parser (`parse_frontmatter`) -/

/-- The metadata mapping built by `parse_frontmatter`: an ordered
key/value association list standing for the Python `dict`. -/
abbrev Dict := List (String × String)

/-- Python `dict` assignment `data[k] = v`: update in place when the key
is present, append otherwise. -/
def dictInsert : Dict → String → String → Dict
  | [], k, v => [(k, v)]
  | (k0, v0) :: rest, k, v =>
    if k0 = k then (k, v) :: rest else (k0, v0) :: dictInsert rest k v

/-- Python `d.get(k, dflt)`. -/
def dictGet (d : Dict) (k dflt : String) : String :=
  match d.find? (fun p => p.1 == k) with
  | some p => p.2
  | none => dflt

/-- Does `line.lstrip()` start with `#` (a frontmatter comment line)? -/
def startsHash : List Char → Bool
  | '#' :: _ => true
  | _ => false

/-- The body of the `for line in front` loop of `parse_frontmatter`:
skip blank lines and comment lines, skip lines without a colon, and
otherwise record `key.strip() -> value.strip().strip(quotes)`. -/
def parseFrontLine (data : Dict) (line : String) : Dict :=
  if pyStrip line = "" then data
  else if startsHash (line.data.dropWhile Char.isWhitespace) then data
  else
    match split1Colon line.data with
    | (_, none) => data
    | (k, some v) => dictInsert data (pyStrip ⟨k⟩) (stripQuotes (pyStrip ⟨v⟩))

/-- `lines.index("---", 1)` in `parse_frontmatter`, expressed on the tail
of the line list: the lines strictly before the first later `---` line,
or `none` when no such line exists. -/
def takeUntilDelim : List String → Option (List String)
  | [] => none
  | l :: ls => if l = "---" then some [] else (takeUntilDelim ls).map (l :: ·)

/-- `parse_frontmatter` after the initial `text.splitlines()`. -/
def parseFromLines : List String → Option Dict × Option String
  | [] => (none, some "missing frontmatter start")
  | l0 :: rest =>
    if pyStrip l0 = "---" then
      match takeUntilDelim rest with
      | none => (none, some "missing frontmatter end")
      | some front => (some (front.foldl parseFrontLine []), none)
    else (none, some "missing frontmatter start")

/-- `parse_frontmatter(text)`: either a metadata mapping or a failure
reason, never both. -/
def parse_frontmatter (text : String) : Option Dict × Option String :=
  parseFromLines (pySplitlines text)

/-! ## Link extractor (`iter_relative_links`) -/

/-- Split a character list at the first occurrence of the delimiter `d`:
`some (a, b)` with `cs = a ++ d :: b` and `d` not occurring in `a`, or
`none` when `d` does not occur.  This captures a regex fragment `[^d]*d`:
the greedy run over a class excluding `d` is forced, so no backtracking
can occur. -/
def breakAt (d : Char) : List Char → Option (List Char × List Char)
  | [] => none
  | c :: cs =>
    if c = d then some ([], cs)
    else (breakAt d cs).map (fun r => (c :: r.1, r.2))

/-- One attempted match of the regex `\x5b[^\x5d]+\x5d\\(([^)]+)\\)` (the
module constant `LINK_RE`) at the head of the text: `[`, one or more
characters other than `]`, then `](`, then the captured target (one or
more characters other than `)`), then `)`.  Returns the capture and the
remaining text after the whole match. -/
def tryLink : List Char → Option (List Char × List Char)
  | '[' :: rest =>
    match breakAt ']' rest with
    | none => none
    | some (disp, rest1) =>
      if disp.isEmpty then none
      else
        match rest1 with
        | '(' :: rest2 =>
          match breakAt ')' rest2 with
          | none => none
          | some (tgt, rest3) => if tgt.isEmpty then none else some (tgt, rest3)
        | _ => none
  | _ => none

/-- `LINK_RE.findall(text)`: scan left to right; at each position try a
match; on success emit the capture and continue after the match,
otherwise advance by one character.  The scan consumes at least one
character per step (`tryLink_length_lt`), so a fuel of the text length
never runs out; fuel keeps the recursion structural. -/
def linkMatchesGo : Nat → List Char → List (List Char)
  | 0, _ => []
  | _, [] => []
  | fuel + 1, c :: cs =>
    match tryLink (c :: cs) with
    | some (t, rest) => t :: linkMatchesGo fuel rest
    | none => linkMatchesGo fuel cs

/-- `LINK_RE.findall(text)` with the always-sufficient fuel. -/
def linkMatches (cs : List Char) : List (List Char) := linkMatchesGo cs.length cs

/-- The excluded target forms of `iter_relative_links`: the argument
tuple of `target.startswith(...)`. -/
def excludedPfxs : List (List Char) :=
  ["#".data, "http://".data, "https://".data, "mailto:".data, "tel:".data, "//".data]

/-- Does the (already stripped) target start with one of the excluded
forms (anchor, web URL, non-filesystem scheme, protocol-relative)? -/
def excludedTarget (cs : List Char) : Bool :=
  excludedPfxs.any (fun p => p.isPrefixOf cs)

/-- `target.split()[0]` for a target without leading whitespace: the
first maximal whitespace-delimited chunk. -/
def firstChunkL (cs : List Char) : List Char :=
  (cs.dropWhile Char.isWhitespace).takeWhile (fun c => !c.isWhitespace)

/-- `target.split("#", 1)[0]`: the part before the first `#` (the whole
string when there is no `#`). -/
def beforeHashL (cs : List Char) : List Char :=
  cs.takeWhile (fun c => c ≠ '#')

/-- The loop body of `iter_relative_links` applied to one raw regex
capture: strip; discard empty targets and excluded schemes; truncate at
the first whitespace, then at the first `#`; discard empty leftovers. -/
def processRawL (raw : List Char) : Option (List Char) :=
  let target := stripWs raw
  if target.isEmpty || excludedTarget target then none
  else
    let t1 := firstChunkL target
    let t2 := beforeHashL t1
    if t2.isEmpty then none else some t2

/-- `iter_relative_links(text)` as the finite list a full traversal of
the generator yields. -/
def iter_relative_links (text : String) : List String :=
  ((linkMatches text.data).filterMap processRawL).map (fun cs => ⟨cs⟩)

/-! ## Path containment resolver -/

/-- An absolute filesystem path as its list of segments from the root. -/
abbrev FsPath := List String

/-- Render a path the way `f"{path}"` does on posix. -/
def pathStr (p : FsPath) : String := "/" ++ String.intercalate "/" p

/-- `(skill_dir / link).resolve()` in a filesystem without symbolic
links: join the target onto the root (a target starting with `/` is
absolute and replaces the root, as with `pathlib` joining) and normalise
`.`/`..`/empty segments; `..` above the filesystem root stays at the
root. -/
def splitSlashGo (acc : List Char) : List Char → List String
  | [] => [⟨acc.reverse⟩]
  | c :: cs =>
    if c = '/' then (⟨acc.reverse⟩ : String) :: splitSlashGo [] cs
    else splitSlashGo (c :: acc) cs

/-- Split a string on `/` (keeping empty segments, like `"a//b".split("/")`). -/
def splitSlash (s : String) : List String := splitSlashGo [] s.data

/-- Does the link start with `/` (an absolute target, which replaces the
root under `pathlib` joining)? -/
def startsSlash : List Char → Bool
  | '/' :: _ => true
  | _ => false

def resolvePath (root : FsPath) (link : String) : FsPath :=
  let segs := splitSlash link
  let start := if startsSlash link.data then ([] : FsPath) else root
  segs.foldl
    (fun acc s =>
      if s = "" || s = "." then acc
      else if s = ".." then acc.dropLast
      else acc ++ [s])
    start

/-- `target_path.relative_to(skill_dir.resolve())` succeeds exactly when
the resolved root is equal to the target or an ancestor of it. -/
def isContained (root p : FsPath) : Bool := root.isPrefixOf p

/-! ## Skill validator (`main`) -/

/-- One validation error, as raised by `main`.  The source accumulates
the rendered strings directly; `renderErr` below produces exactly those
strings. -/
inductive VErr where
  | rootMissing : VErr
  | missingSkillMd (md : String) : VErr
  | parseFail (md : String) (reason : String) : VErr
  | missingName (md : String) : VErr
  | nameMismatch (md : String) (name folder : String) : VErr
  | namePattern (md : String) (name : String) : VErr
  | dupName (md : String) (name : String) (first : String) : VErr
  | linkEscape (md : String) (link : String) : VErr
  | linkMissing (md : String) (link : String) : VErr
deriving DecidableEq

/-- The exact strings `main` appends to `errors`. -/
def renderErr : VErr → String
  | .rootMissing => "skills/ directory not found"
  | .missingSkillMd md => md ++ ": missing SKILL.md"
  | .parseFail md reason => md ++ ": " ++ reason
  | .missingName md => md ++ ": missing name in frontmatter"
  | .nameMismatch md name folder =>
      md ++ ": name \x27" ++ name ++ "\x27 does not match folder \x27" ++ folder ++ "\x27"
  | .namePattern md name =>
      md ++ ": name \x27" ++ name ++ "\x27 must match ^[a-z0-9-]\x7b1,64\x7d$"
  | .dupName md name first =>
      md ++ ": duplicate name \x27" ++ name ++ "\x27 also in " ++ first
  | .linkEscape md link => md ++ ": link escapes skill dir: " ++ link
  | .linkMissing md link => md ++ ": missing link target: " ++ link

/-- Is a name character allowed by `NAME_RE`'s class `[a-z0-9-]`? -/
def isNameChar (c : Char) : Bool :=
  ('a' ≤ c && c ≤ 'z') || ('0' ≤ c && c ≤ '9') || c = '-'

/-- `NAME_RE.match(name)` for `^[a-z0-9-]\x7b1,64\x7d$`: between 1 and 64
allowed characters (Python's `$` also accepts one trailing newline, but a
frontmatter value can never contain one, having come from a line split). -/
def nameMatches (s : String) : Bool :=
  let cs := if s.data.getLast? = some '\n' then s.data.dropLast else s.data
  decide (1 ≤ cs.length) && decide (cs.length ≤ 64) && cs.all isNameChar

/-- The name registry `seen_names`: skill name to the path string of the
document that first declared it. -/
abbrev Registry := List (String × String)

/-- `seen_names.get`-style lookup (`name in seen_names` plus read). -/
def regLookup (r : Registry) (n : String) : Option String :=
  (r.find? (fun p => p.1 == n)).map (fun p => p.2)

/-- `seen_names[name] = path`; only reached when the name is absent, so
appending is faithful to the dict update. -/
def regInsert (r : Registry) (n v : String) : Registry := r ++ [(n, v)]

/-- One skill folder (an immediate child directory of `skills/`):
its directory name and - when `SKILL.md` exists - that file's text. -/
structure Folder where
  name : String
  skillMd : Option String
deriving DecidableEq

/-- The modelled filesystem state `main` reads: the resolved repository
root, whether `skills/` is a directory, the skill folders inside it (the
immediate child directories, files being ignored), and the set of
existing absolute paths used by the link existence check. -/
structure SkillsFS where
  repoRoot : FsPath
  skillsDirPresent : Bool
  folders : List Folder
  existing : List FsPath
deriving DecidableEq

/-- The path string of a folder's `SKILL.md` document. -/
def mdStr (skillsDir : FsPath) (folderName : String) : String :=
  pathStr (skillsDir ++ [folderName, "SKILL.md"])

/-- The body of the `for link in iter_relative_links(text)` loop: resolve
the link against the folder root; an escaping link records exactly the
escape error and skips the existence check; a contained link records a
missing-target error when the resolved path does not exist. -/
def checkLink (md : String) (dir : FsPath) (existing : List FsPath)
    (link : String) : List VErr :=
  let target := resolvePath dir link
  if !isContained dir target then [.linkEscape md link]
  else if !existing.contains target then [.linkMissing md link]
  else []

/-- One iteration of the folder loop of `main`, split from the error
accumulator: given the registry so far and a folder, produce the updated
registry and the errors this folder appends. -/
def folderStep (skillsDir : FsPath) (existing : List FsPath)
    (reg : Registry) (f : Folder) : Registry × List VErr :=
  let dir := skillsDir ++ [f.name]
  let md := mdStr skillsDir f.name
  match f.skillMd with
  | none => (reg, [.missingSkillMd md])
  | some text =>
    match parse_frontmatter text with
    | (_, some err) => (reg, [.parseFail md err])
    | (meta, none) =>
      let data := meta.getD []
      let name := dictGet data "name" ""
      let (reg2, nameErrs) :=
        if name = "" then (reg, [VErr.missingName md])
        else
          let e1 := if name ≠ f.name then [VErr.nameMismatch md name f.name] else []
          let e2 := if !nameMatches name then [VErr.namePattern md name] else []
          match regLookup reg name with
          | some first => (reg, e1 ++ e2 ++ [VErr.dupName md name first])
          | none => (regInsert reg name md, e1 ++ e2)
      let linkErrs := (iter_relative_links text).flatMap (checkLink md dir existing)
      (reg2, nameErrs ++ linkErrs)

/-- The folder loop body threaded through the shared accumulator. -/
def processFolder (skillsDir : FsPath) (existing : List FsPath)
    (st : Registry × List VErr) (f : Folder) : Registry × List VErr :=
  let d := folderStep skillsDir existing st.1 f
  (d.1, st.2 ++ d.2)

/-- The name a folder effectively declares: the `name` value of its
parsed frontmatter, when `SKILL.md` exists, parsing succeeds and the
value is non-empty; these are exactly the conditions under which `main`
consults and updates `seen_names`. -/
def declaredName (f : Folder) : Option String :=
  match f.skillMd with
  | none => none
  | some text =>
    match parse_frontmatter text with
    | (_, some _) => none
    | (meta, none) =>
      let n := dictGet (meta.getD []) "name" ""
      if n = "" then none else some n

/-- Code-point lexicographic order on character lists: Python's string
comparison, used for the folder sort. -/
def charListLe : List Char → List Char → Bool
  | [], _ => true
  | _ :: _, [] => false
  | a :: as, b :: bs => if a = b then charListLe as bs else decide (a < b)

/-- Python string `<=` on folder names. -/
def nameLe (s t : String) : Bool := charListLe s.data t.data

/-- Insert a folder into a name-sorted folder list. -/
def insertSorted (f : Folder) : List Folder → List Folder
  | [] => [f]
  | g :: gs => if nameLe f.name g.name then f :: g :: gs else g :: insertSorted f gs

/-- `sorted(p for p in skills_dir.iterdir() if p.is_dir())`: the skill
folders in lexicographic order of folder name (paths share the parent,
so path order is name order; directory entries have distinct names). -/
def sortFolders (l : List Folder) : List Folder := l.foldr insertSorted []

/-- The full error list `main` accumulates. -/
def mainErrors (fs : SkillsFS) : List VErr :=
  if !fs.skillsDirPresent then [.rootMissing]
  else
    ((sortFolders fs.folders).foldl
      (processFolder (fs.repoRoot ++ ["skills"]) fs.existing) ([], [])).2

/-- The lines `main` prints. -/
def mainOutput (fs : SkillsFS) : List String :=
  if mainErrors fs = [] then ["Skill validation passed."]
  else "Skill validation failed:" :: (mainErrors fs).map (fun e => "- " ++ renderErr e)

/-- The process exit status `main` returns. -/
def mainExit (fs : SkillsFS) : Nat := if mainErrors fs = [] then 0 else 1

/-! ## Error-class predicates used by the claim statements -/

/-- Is the error a duplicate-name error? -/
def isDupErr : VErr → Bool
  | .dupName _ _ _ => true
  | _ => false

/-- Is the error a folder/name mismatch error? -/
def isMismatchErr : VErr → Bool
  | .nameMismatch _ _ _ => true
  | _ => false

/-- Is the error an identifier-pattern error? -/
def isPatternErr : VErr → Bool
  | .namePattern _ _ => true
  | _ => false

/-- Is the error a link-escape error? -/
def isLinkEscapeErr : VErr → Bool
  | .linkEscape _ _ => true
  | _ => false

/-- Is the error a missing-link-target error? -/
def isLinkMissingErr : VErr → Bool
  | .linkMissing _ _ => true
  | _ => false

/-! ## Generic lemmas about the embedded helpers -/

theorem breakAt_length_lt {d : Char} {cs a b : List Char}
    (h : breakAt d cs = some (a, b)) : b.length < cs.length := by
  induction cs generalizing a b with
  | nil => simp [breakAt] at h
  | cons c cs ih =>
    simp only [breakAt] at h
    by_cases hc : c = d
    · rw [if_pos hc] at h
      simp only [Option.some.injEq, Prod.mk.injEq] at h
      simp [← h.2]
    · rw [if_neg hc] at h
      simp only [Option.map_eq_some'] at h
      obtain ⟨r, hr, hab⟩ := h
      cases hab
      exact Nat.lt_succ_of_lt (ih (by rw [hr]))

theorem tryLink_length_lt {cs t rest : List Char}
    (h : tryLink cs = some (t, rest)) : rest.length < cs.length := by
  unfold tryLink at h
  split at h
  · rename_i rest0
    split at h
    · exact absurd h (by simp)
    · rename_i disp rest1 hbr1
      split at h
      · exact absurd h (by simp)
      · split at h
        · rename_i rest2
          split at h
          · exact absurd h (by simp)
          · rename_i tgt rest3 hbr2
            split at h
            · exact absurd h (by simp)
            · simp only [Option.some.injEq, Prod.mk.injEq] at h
              have h2 : rest3.length < rest2.length := breakAt_length_lt hbr2
              have h1 : ('(' :: rest2).length < rest0.length := breakAt_length_lt hbr1
              rw [← h.2]
              simp only [List.length_cons] at h1 ⊢
              omega
        · exact absurd h (by simp)
  · exact absurd h (by simp)

theorem splitlinesGo_ne_nil (cs acc : List Char) : splitlinesGo acc cs ≠ [] := by
  induction cs generalizing acc with
  | nil => simp [splitlinesGo]
  | cons c cs ih =>
    rw [splitlinesGo]
    by_cases h1 : (c = '\n' || c = '\r') = true
    · simp only [h1, if_pos]
      simp
    · rw [if_neg (by simpa using h1)]
      exact ih _

theorem pySplitlines_eq_nil {text : String} : pySplitlines text = [] ↔ text = "" := by
  constructor
  · intro h
    rcases text with ⟨data⟩
    cases data with
    | nil => rfl
    | cons c cs =>
      exfalso
      simp only [pySplitlines, splitlinesL] at h
      rw [if_neg (by simp)] at h
      exact splitlinesGo_ne_nil _ _ (by simpa using h)
  · intro h; subst h; rfl

theorem takeUntilDelim_eq_none {ls : List String} :
    takeUntilDelim ls = none ↔ "---" ∉ ls := by
  induction ls with
  | nil => simp [takeUntilDelim]
  | cons l ls ih =>
    simp only [takeUntilDelim]
    by_cases hl : l = "---"
    · simp [hl]
    · simp [hl, ih, Option.map_eq_none', Ne.symm hl]

theorem parseFromLines_exclusive (lines : List String) :
    (∃ d, parseFromLines lines = (some d, none)) ∨
      (∃ r, parseFromLines lines = (none, some r) ∧ r ≠ "") := by
  cases lines with
  | nil => right; exact ⟨_, rfl, by decide⟩
  | cons l0 rest =>
    rw [parseFromLines]
    by_cases hs : pyStrip l0 = "---"
    · rw [if_pos hs]
      cases takeUntilDelim rest with
      | none => right; exact ⟨_, rfl, by decide⟩
      | some front => left; exact ⟨_, rfl⟩
    · rw [if_neg hs]
      right; exact ⟨_, rfl, by decide⟩

/-- Claim C9: for every input text, `parse_frontmatter` returns a pair in
which exactly one component is `None`: on success a mapping paired with
`None`, on failure `None` paired with a non-empty failure reason; callers
can thus branch solely on the error component. -/
theorem claim_c9 (text : String) :
    (∃ d, parse_frontmatter text = (some d, none)) ∨
      (∃ r, parse_frontmatter text = (none, some r) ∧ r ≠ "") :=
  parseFromLines_exclusive (pySplitlines text)

/-- Claim C3: `parse_frontmatter` fails with exactly one of two mutually
exclusive reasons checked in order - "missing frontmatter start" iff the
text is empty or its first line after whitespace trimming is not exactly
`---`; otherwise "missing frontmatter end" iff no second occurrence of
the delimiter token exists after the first line; otherwise it succeeds. -/
theorem claim_c3 (text : String) :
    ((parse_frontmatter text).2 = some "missing frontmatter start" ↔
      (text = "" ∨ pyStrip ((pySplitlines text).headD "") ≠ "---"))
    ∧ ((parse_frontmatter text).2 = some "missing frontmatter end" ↔
      (text ≠ "" ∧ pyStrip ((pySplitlines text).headD "") = "---" ∧
        "---" ∉ (pySplitlines text).tail))
    ∧ ((parse_frontmatter text).2 = none ↔
      (text ≠ "" ∧ pyStrip ((pySplitlines text).headD "") = "---" ∧
        "---" ∈ (pySplitlines text).tail)) := by
  have hne : ("missing frontmatter start" : String) ≠ "missing frontmatter end" := by decide
  unfold parse_frontmatter
  have hnil := @pySplitlines_eq_nil text
  cases hl : pySplitlines text with
  | nil =>
    rw [hl] at hnil
    have htext : text = "" := hnil.mp rfl
    simp only [parseFromLines, List.headD_nil, List.tail_nil]
    refine ⟨?_, ?_, ?_⟩
    · simp [htext]
    · simp [htext, hne]
    · simp [htext]
  | cons l0 rest =>
    rw [hl] at hnil
    have htext : text ≠ "" := fun he => by simp [he] at hnil
    rw [parseFromLines]
    simp only [List.headD_cons, List.tail_cons]
    by_cases hs : pyStrip l0 = "---"
    · rw [if_pos hs]
      cases ht : takeUntilDelim rest with
      | none =>
        have hmem : "---" ∉ rest := takeUntilDelim_eq_none.mp ht
        refine ⟨?_, ?_, ?_⟩
        · simp [hs, htext, Ne.symm hne]
        · simp [hs, htext, hmem]
        · simp [hs, htext, hmem]
      | some front =>
        have hmem : "---" ∈ rest := by
          by_contra hc
          rw [takeUntilDelim_eq_none.mpr hc] at ht
          exact absurd ht (by simp)
        refine ⟨?_, ?_, ?_⟩
        · simp [hs, htext]
        · simp [hs, htext, hmem]
        · simp [hs, htext, hmem]
    · rw [if_neg hs]
      refine ⟨?_, ?_, ?_⟩
      · simp [hs]
      · simp [hs, htext, hne]
      · simp [hs]

/-! ## Claims about the per-link and per-folder checks -/

/-- Claim C1: a link target that, joined onto the skill folder root and
normalised, does not lie within the normalised folder root records
exactly one "link escapes skill dir" error carrying the original target
string, and no "missing link target" error for that same link (the
existence check is skipped for escaping links). -/
theorem claim_c1 (md : String) (dir : FsPath) (existing : List FsPath) (link : String)
    (h : isContained dir (resolvePath dir link) = false) :
    checkLink md dir existing link = [.linkEscape md link]
    ∧ (checkLink md dir existing link).countP isLinkEscapeErr = 1
    ∧ (checkLink md dir existing link).countP isLinkMissingErr = 0 := by
  have h1 : checkLink md dir existing link = [.linkEscape md link] := by
    simp [checkLink, h]
  refine ⟨h1, ?_, ?_⟩ <;> rw [h1] <;> simp [List.countP_cons, isLinkEscapeErr, isLinkMissingErr]

theorem claim_c1_witness :
    isContained ["repo", "skills", "my-skill"]
        (resolvePath ["repo", "skills", "my-skill"] "../../etc/passwd") = false
    ∧ checkLink "/repo/skills/my-skill/SKILL.md" ["repo", "skills", "my-skill"]
        [["repo", "etc", "passwd"]] "../../etc/passwd"
      = [.linkEscape "/repo/skills/my-skill/SKILL.md" "../../etc/passwd"] :=
  ⟨by decide, (claim_c1 _ _ _ _ (by decide)).1⟩

/-- Claim C7: a folder without `SKILL.md` records exactly one error and
runs no further checks; a folder whose frontmatter parsing fails records
the failure reason against the document and runs no name or link checks.
In both cases the name registry is left untouched. -/
theorem claim_c7 (skillsDir : FsPath) (existing : List FsPath) (reg : Registry) (f : Folder) :
    (f.skillMd = none →
      folderStep skillsDir existing reg f = (reg, [.missingSkillMd (mdStr skillsDir f.name)]))
    ∧ (∀ text reason, f.skillMd = some text →
        (parse_frontmatter text).2 = some reason →
        folderStep skillsDir existing reg f = (reg, [.parseFail (mdStr skillsDir f.name) reason])) := by
  constructor
  · intro h
    simp [folderStep, h]
  · intro text reason hmd hp
    rcases he : parse_frontmatter text with ⟨m, e⟩
    rw [he] at hp
    simp only at hp
    subst hp
    simp [folderStep, hmd, he]

theorem claim_c7_witness :
    ((⟨"a", none⟩ : Folder).skillMd = none
      ∧ folderStep ["repo", "skills"] [] [] ⟨"a", none⟩
        = ([], [.missingSkillMd "/repo/skills/a/SKILL.md"]))
    ∧ ((⟨"b", some "no frontmatter"⟩ : Folder).skillMd = some "no frontmatter"
      ∧ (parse_frontmatter "no frontmatter").2 = some "missing frontmatter start"
      ∧ folderStep ["repo", "skills"] [] [] ⟨"b", some "no frontmatter"⟩
        = ([], [.parseFail "/repo/skills/b/SKILL.md" "missing frontmatter start"])) :=
  ⟨⟨rfl, (claim_c7 ["repo", "skills"] [] [] ⟨"a", none⟩).1 rfl⟩,
   ⟨rfl, by decide,
    (claim_c7 ["repo", "skills"] [] [] ⟨"b", some "no frontmatter"⟩).2
      "no frontmatter" "missing frontmatter start" rfl (by decide)⟩⟩

/-- Claim C8: the verdict is a pure function of the accumulated error
list - when non-empty, the failure header plus one `- <message>` line
per error in order and exit status 1; when empty (including a skills
directory with zero subdirectories), the single pass line and exit 0;
and an absent skills root accumulates exactly the one "skills/ directory
not found" error with exit 1. -/
theorem claim_c8 (fs : SkillsFS) :
    (mainErrors fs ≠ [] →
      mainOutput fs
          = "Skill validation failed:" :: (mainErrors fs).map (fun e => "- " ++ renderErr e)
        ∧ mainExit fs = 1)
    ∧ (mainErrors fs = [] →
      mainOutput fs = ["Skill validation passed."] ∧ mainExit fs = 0)
    ∧ (fs.skillsDirPresent = false →
      (mainErrors fs).map renderErr = ["skills/ directory not found"] ∧ mainExit fs = 1)
    ∧ (fs.skillsDirPresent = true → fs.folders = [] →
      mainErrors fs = [] ∧ mainExit fs = 0) := by
  refine ⟨fun h => ⟨?_, ?_⟩, fun h => ⟨?_, ?_⟩, fun h => ⟨?_, ?_⟩, fun h hf => ⟨?_, ?_⟩⟩
  · simp [mainOutput, h]
  · simp [mainExit, h]
  · simp [mainOutput, h]
  · simp [mainExit, h]
  · simp [mainErrors, h, renderErr]
  · have : mainErrors fs = [.rootMissing] := by simp [mainErrors, h]
    simp [mainExit, this]
  · simp [mainErrors, h, hf, sortFolders]
  · have : mainErrors fs = [] := by simp [mainErrors, h, hf, sortFolders]
    simp [mainExit, this]

theorem claim_c8_witness :
    (mainErrors ⟨["repo"], false, [], []⟩ ≠ []
      ∧ (mainErrors ⟨["repo"], false, [], []⟩).map renderErr = ["skills/ directory not found"]
      ∧ mainExit ⟨["repo"], false, [], []⟩ = 1)
    ∧ (mainErrors ⟨["repo"], true, [], []⟩ = []
      ∧ mainOutput ⟨["repo"], true, [], []⟩ = ["Skill validation passed."]
      ∧ mainExit ⟨["repo"], true, [], []⟩ = 0) :=
  ⟨⟨by decide, (claim_c8 ⟨["repo"], false, [], []⟩).2.2.1 rfl⟩,
   ⟨by decide, (claim_c8 ⟨["repo"], true, [], []⟩).2.1 (by decide)⟩⟩

/-! ## Claims about the link extractor -/

theorem dropWhile_head_false {p : Char → Bool} {l : List Char} {c : Char} {cs : List Char}
    (h : l.dropWhile p = c :: cs) : p c = false := by
  induction l with
  | nil => simp at h
  | cons a l ih =>
    rw [List.dropWhile_cons] at h
    by_cases ha : p a = true
    · rw [if_pos ha] at h; exact ih h
    · rw [if_neg ha] at h
      cases h
      simpa using ha

theorem trimEnds_isPfx (p : Char → Bool) (cs : List Char) :
    (trimEnds p cs) <+: (cs.dropWhile p) := by
  unfold trimEnds
  have h1 : ((cs.dropWhile p).reverse.dropWhile p)
      <:+ (cs.dropWhile p).reverse := List.dropWhile_suffix _
  have h2 := List.reverse_prefix.mpr h1
  simpa using h2

theorem trimEnds_head_false {p : Char → Bool} {cs : List Char} {c : Char} {rest : List Char}
    (h : trimEnds p cs = c :: rest) : p c = false := by
  have hpfx := trimEnds_isPfx p cs
  rw [h] at hpfx
  obtain ⟨t, ht⟩ := hpfx
  cases hd : cs.dropWhile p with
  | nil => rw [hd] at ht; simp at ht
  | cons d ds =>
    rw [hd] at ht
    have : d = c := by
      have := ht.symm
      simp at this
      exact this.1
    subst this
    exact dropWhile_head_false hd

theorem trimEnds_getLast_false {p : Char → Bool} {cs : List Char} {c : Char}
    (h : (trimEnds p cs).getLast? = some c) : p c = false := by
  unfold trimEnds at h
  rw [List.getLast?_reverse] at h
  cases hd : ((cs.dropWhile p).reverse.dropWhile p) with
  | nil => rw [hd] at h; simp at h
  | cons d ds =>
    rw [hd] at h
    simp only [List.head?_cons, Option.some.injEq] at h
    subst h
    exact dropWhile_head_false hd

theorem trimEnds_idem (p : Char → Bool) (cs : List Char) :
    trimEnds p (trimEnds p cs) = trimEnds p cs := by
  cases he : trimEnds p cs with
  | nil => rfl
  | cons c rest =>
    have hc : p c = false := trimEnds_head_false he
    show trimEnds p (c :: rest) = c :: rest
    unfold trimEnds
    rw [List.dropWhile_cons, if_neg (by simp [hc])]
    cases hrev : (c :: rest).reverse with
    | nil => simp at hrev
    | cons d ds =>
      have hd : (c :: rest).getLast? = some d := by
        rw [← List.head?_reverse, hrev]; rfl
      have hdp : p d = false := trimEnds_getLast_false (he ▸ hd)
      rw [List.dropWhile_cons, if_neg (by simp [hdp]), ← hrev,
        List.reverse_reverse]

theorem stripWs_head_not_ws {cs : List Char} {c : Char} {rest : List Char}
    (h : stripWs cs = c :: rest) : c.isWhitespace = false :=
  trimEnds_head_false h

theorem firstChunkL_of_head_not_ws {c : Char} {rest : List Char}
    (hc : c.isWhitespace = false) :
    firstChunkL (c :: rest) = c :: rest.takeWhile (fun x => !x.isWhitespace) := by
  unfold firstChunkL
  rw [List.dropWhile_cons, if_neg (by simp [hc]), List.takeWhile_cons, if_pos (by simp [hc])]

theorem excludedTarget_head_ne_hash {c : Char} {rest : List Char}
    (hex : excludedTarget (c :: rest) = false) : c ≠ '#' := by
  intro hc
  subst hc
  simp [excludedTarget, excludedPfxs, List.isPrefixOf] at hex

theorem stripped_pipeline {raw : List Char} (hne : stripWs raw ≠ [])
    (hex : excludedTarget (stripWs raw) = false) :
    beforeHashL (firstChunkL (stripWs raw)) ≠ []
    ∧ beforeHashL (firstChunkL (stripWs raw)) <+: stripWs raw := by
  rcases hs : stripWs raw with _ | ⟨c, rest⟩
  · exact absurd hs hne
  · have hc : c.isWhitespace = false := stripWs_head_not_ws hs
    have hhash : c ≠ '#' := excludedTarget_head_ne_hash (hs ▸ hex)
    constructor
    · rw [firstChunkL_of_head_not_ws hc]
      unfold beforeHashL
      rw [List.takeWhile_cons, if_pos (by simp [hhash])]
      simp
    · have h1 : beforeHashL (firstChunkL (c :: rest)) <+: firstChunkL (c :: rest) :=
        List.takeWhile_prefix _
      have h2 : firstChunkL (c :: rest) <+: (c :: rest) := by
        rw [firstChunkL_of_head_not_ws hc]
        have hrest : rest.takeWhile (fun x => !x.isWhitespace) <+: rest :=
          List.takeWhile_prefix _
        exact ⟨_, by rw [List.cons_append]; congr 1; exact hrest.choose_spec⟩
      exact h1.trans h2

theorem processRawL_eq_some {raw t : List Char} :
    processRawL raw = some t ↔
      stripWs raw ≠ [] ∧ excludedTarget (stripWs raw) = false
        ∧ t = beforeHashL (firstChunkL (stripWs raw)) := by
  unfold processRawL
  constructor
  · intro h
    by_cases hg : ((stripWs raw).isEmpty || excludedTarget (stripWs raw)) = true
    · rw [if_pos hg] at h; exact absurd h (by simp)
    · rw [if_neg hg] at h
      simp only [Bool.or_eq_true, List.isEmpty_iff, not_or, Bool.not_eq_true] at hg
      by_cases h2 : (beforeHashL (firstChunkL (stripWs raw))).isEmpty = true
      · rw [if_pos h2] at h; exact absurd h (by simp)
      · rw [if_neg h2] at h
        simp only [Option.some.injEq] at h
        exact ⟨hg.1, hg.2, h.symm⟩
  · rintro ⟨hne, hex, ht⟩
    rw [if_neg (by simp [hne, hex])]
    have := (stripped_pipeline hne hex).1
    rw [if_neg (by simpa using this)]
    rw [ht]

theorem processRawL_mem_spec {raw t : List Char} (h : processRawL raw = some t) :
    t ≠ [] ∧ (∀ c ∈ t, c.isWhitespace = false ∧ c ≠ '#')
      ∧ excludedTarget t = false := by
  obtain ⟨hne, hex, ht⟩ := processRawL_eq_some.mp h
  have hpipe := stripped_pipeline hne hex
  subst ht
  refine ⟨hpipe.1, ?_, ?_⟩
  · intro c hc
    have h1 : c ∈ firstChunkL (stripWs raw) :=
      (List.takeWhile_sublist _).subset hc
    have hhash : c ≠ '#' := by simpa using List.mem_takeWhile_imp hc
    have hws : c.isWhitespace = false := by
      simpa using List.mem_takeWhile_imp h1
    exact ⟨hws, hhash⟩
  · by_contra hcon
    rw [Bool.not_eq_false] at hcon
    unfold excludedTarget at hcon
    rw [List.any_eq_true] at hcon
    obtain ⟨p, hpmem, hpfx⟩ := hcon
    have hpt : p <+: beforeHashL (firstChunkL (stripWs raw)) :=
      List.isPrefixOf_iff_prefix.mp hpfx
    have hps : p.isPrefixOf (stripWs raw) = true :=
      List.isPrefixOf_iff_prefix.mpr (hpt.trans hpipe.2)
    have hfalse : excludedTarget (stripWs raw) = true := by
      unfold excludedTarget
      rw [List.any_eq_true]
      exact ⟨p, hpmem, hps⟩
    rw [hex] at hfalse
    exact absurd hfalse (by simp)

theorem iter_mem_spec {text : String} {t : String}
    (hmem : t ∈ iter_relative_links text) :
    t.data ≠ [] ∧ (∀ c ∈ t.data, c.isWhitespace = false ∧ c ≠ '#')
      ∧ excludedTarget t.data = false := by
  unfold iter_relative_links at hmem
  rw [List.mem_map] at hmem
  obtain ⟨cs, hcs, hts⟩ := hmem
  rw [List.mem_filterMap] at hcs
  obtain ⟨raw, _, hpr⟩ := hcs
  have hdata : t.data = cs := by rw [← hts]
  rw [hdata]
  exact processRawL_mem_spec hpr

/-- Claim C4: the extractor pipeline per raw match - trim; discard if
empty or starting with an excluded-scheme form; else truncate at the
first whitespace, then at the first `#`; discard if empty; otherwise
yield.  A target `https://example.com/page` is never yielded and
produces no error. -/
theorem claim_c4 (text : String) :
    ("https://example.com/page" ∉ iter_relative_links text)
    ∧ (∀ raw t, processRawL raw = some t →
        t = beforeHashL (firstChunkL (stripWs raw))
          ∧ stripWs raw ≠ [] ∧ excludedTarget (stripWs raw) = false)
    ∧ (∀ raw, stripWs raw = [] ∨ excludedTarget (stripWs raw) = true →
        processRawL raw = none)
    ∧ iter_relative_links "see [a](docs/x.md#frag extra) and [b](https://example.com/page)"
        = ["docs/x.md"] := by
  refine ⟨?_, ?_, ?_, by decide⟩
  · intro hmem
    have hspec := iter_mem_spec hmem
    exact absurd hspec.2.2 (by decide)
  · intro raw t h
    obtain ⟨h1, h2, h3⟩ := processRawL_eq_some.mp h
    exact ⟨h3, h1, h2⟩
  · intro raw h
    unfold processRawL
    rcases h with h | h
    · rw [if_pos (by simp [h])]
    · rw [if_pos (by simp [h])]

theorem claim_c4_witness :
    ("https://example.com/page" ∉ iter_relative_links "[a](b)")
    ∧ (("docs/x.md" : String).data
          = beforeHashL (firstChunkL (stripWs (" docs/x.md#frag rest" : String).data))
        ∧ stripWs (" docs/x.md#frag rest" : String).data ≠ []
        ∧ excludedTarget (stripWs (" docs/x.md#frag rest" : String).data) = false)
    ∧ processRawL ("https://x" : String).data = none :=
  ⟨(claim_c4 "[a](b)").1,
   (claim_c4 "").2.1 _ _ (by decide),
   (claim_c4 "").2.2.1 _ (Or.inr (by decide))⟩

/-- Claim C10: every yielded target is a non-empty string with no
whitespace character and no `#`, and does not start with any excluded
form; consequently the final discard-if-empty step never fires on a
target that survives the earlier steps. -/
theorem claim_c10 (text : String) :
    (∀ t, t ∈ iter_relative_links text →
      t.data ≠ [] ∧ (∀ c ∈ t.data, c.isWhitespace = false ∧ c ≠ '#')
        ∧ excludedTarget t.data = false)
    ∧ (∀ raw, stripWs raw ≠ [] → excludedTarget (stripWs raw) = false →
        processRawL raw = some (beforeHashL (firstChunkL (stripWs raw)))) := by
  constructor
  · intro t hmem
    exact iter_mem_spec hmem
  · intro raw hne hex
    exact processRawL_eq_some.mpr ⟨hne, hex, rfl⟩

theorem claim_c10_witness :
    (("b" : String).data ≠ []
      ∧ (∀ c ∈ ("b" : String).data, c.isWhitespace = false ∧ c ≠ '#')
      ∧ excludedTarget ("b" : String).data = false)
    ∧ processRawL (" b #x" : String).data
        = some (beforeHashL (firstChunkL (stripWs (" b #x" : String).data))) :=
  ⟨(claim_c10 "[a](b)").1 "b" (by decide),
   (claim_c10 "").2 (" b #x" : String).data (by decide) (by decide)⟩

/-! ## Claim about frontmatter value parsing -/

/-- Counterexample to claim C2 as stated: for the frontmatter line
`k: ""v""` the source parses the value to `v` (all surrounding quote
characters stripped), while the claimed one-layer-of-matching-quotes
semantics would give `"v"`. -/
theorem claim_c2_counterexample :
    (parse_frontmatter "---\nk: \"\"v\"\"\n---").1 = some [("k", "v")]
    ∧ stripOneMatchingQuoteLayer (pyStrip "\"\"v\"\"").data = ("\"v\"" : String).data
    ∧ ("v" : String).data ≠ ("\"v\"" : String).data :=
  ⟨by decide, by decide, by decide⟩

/-- Claim C2 as amended: a frontmatter line containing `:` splits at the
first `:` into a trimmed key and a value that is trimmed and then has
ALL leading and trailing quote characters of either kind removed
(stripping is exhaustive and does not require the two ends to match);
`key: "quoted value"` still parses to the bare `quoted value`. -/
theorem claim_c2_amended :
    (∀ (data : Dict) (line : String) (k v : List Char),
      split1Colon line.data = (k, some v) →
      pyStrip line ≠ "" →
      startsHash (line.data.dropWhile Char.isWhitespace) = false →
      parseFrontLine data line = dictInsert data (pyStrip ⟨k⟩) (stripQuotes (pyStrip ⟨v⟩)))
    ∧ (∀ cs : List Char, stripQuotesL (stripQuotesL cs) = stripQuotesL cs)
    ∧ (∀ (cs : List Char) (c : Char) (rest : List Char),
        stripQuotesL cs = c :: rest → isQuoteChar c = false)
    ∧ (∀ (cs : List Char) (c : Char),
        (stripQuotesL cs).getLast? = some c → isQuoteChar c = false)
    ∧ (parse_frontmatter "---\nkey: \"quoted value\"\n---").1 = some [("key", "quoted value")]
    ∧ (parse_frontmatter "---\nkey: \x27quoted value\x27\n---").1 = some [("key", "quoted value")]
    ∧ (parse_frontmatter "---\nk: \"\"v\"\"\n---").1 = some [("k", "v")] := by
  refine ⟨?_, fun cs => trimEnds_idem _ _, fun cs c rest h => trimEnds_head_false h,
    fun cs c h => trimEnds_getLast_false h, by decide, by decide, by decide⟩
  intro data line k v hsplit hblank hcomment
  unfold parseFrontLine
  rw [if_neg hblank, if_neg (by simp [hcomment]), hsplit]

theorem claim_c2_amended_witness :
    (split1Colon ("name: v" : String).data
        = (("name" : String).data, some (" v" : String).data))
    ∧ parseFrontLine [] "name: v"
        = dictInsert [] (pyStrip "name") (stripQuotes (pyStrip " v")) :=
  ⟨by decide,
   claim_c2_amended.1 [] "name: v" ("name" : String).data (" v" : String).data
     (by decide) (by decide) (by decide)⟩

/-! ## Claims about name registration across folders -/

theorem checkLink_mem_shape {md : String} {dir : FsPath} {ex : List FsPath}
    {link : String} {e : VErr} (h : e ∈ checkLink md dir ex link) :
    e = .linkEscape md link ∨ e = .linkMissing md link := by
  simp only [checkLink] at h
  split at h
  · left; simpa using h
  · split at h
    · right; simpa using h
    · simp at h

theorem flatMap_checkLink_filter_nil {md : String} {dir : FsPath} {ex : List FsPath}
    {links : List String} {p : VErr → Bool}
    (hp : ∀ m l, p (.linkEscape m l) = false ∧ p (.linkMissing m l) = false) :
    ((links.flatMap (checkLink md dir ex)).filter p) = [] := by
  rw [List.filter_eq_nil_iff]
  intro e he
  rw [List.mem_flatMap] at he
  obtain ⟨l, _, hel⟩ := he
  rcases checkLink_mem_shape hel with h | h <;> subst h <;> simp [(hp md l).1, (hp md l).2]

theorem declaredName_some {f : Folder} {n : String} (h : declaredName f = some n) :
    ∃ text m, f.skillMd = some text ∧ parse_frontmatter text = (m, none)
      ∧ dictGet (m.getD []) "name" "" = n ∧ n ≠ "" := by
  unfold declaredName at h
  cases hmd : f.skillMd with
  | none => rw [hmd] at h; simp at h
  | some text =>
    rw [hmd] at h
    dsimp only at h
    rcases hp : parse_frontmatter text with ⟨m, e⟩
    rw [hp] at h
    cases e with
    | some err => simp at h
    | none =>
      simp only [] at h
      by_cases hz : dictGet (m.getD []) "name" "" = ""
      · rw [if_pos hz] at h
        · simp at h
      · rw [if_neg hz] at h
        simp only [Option.some.injEq] at h
        exact ⟨text, m, rfl, hp, h, h ▸ hz⟩

theorem regLookup_insert (r : Registry) (m v n : String) :
    regLookup (regInsert r m v) n
      = (regLookup r n).or (if m = n then some v else none) := by
  unfold regLookup regInsert
  rw [List.find?_append]
  cases hf : r.find? (fun p => p.1 == n) with
  | some p => simp
  | none =>
    by_cases hm : m = n
    · simp [hm]
    · simp [List.find?_cons, hm]

theorem folderStep_reg (sd : FsPath) (ex : List FsPath) (r : Registry) (f : Folder)
    (n : String) :
    regLookup (folderStep sd ex r f).1 n
      = (regLookup r n).or
          (if declaredName f = some n then some (mdStr sd f.name) else none) := by
  unfold folderStep declaredName
  cases hmd : f.skillMd with
  | none => simp
  | some text =>
    dsimp only
    rcases hp : parse_frontmatter text with ⟨m, e⟩
    cases e with
    | some err => simp
    | none =>
      dsimp only
      by_cases hz : dictGet (m.getD []) "name" "" = ""
      · rw [if_pos hz]
        simp [hz]
      · rw [if_neg hz]
        cases hl : regLookup r (dictGet (m.getD []) "name" "") with
        | some first =>
          dsimp only
          by_cases hnn : dictGet (m.getD []) "name" "" = n
          · rw [hnn] at hz hl
            rw [hnn, if_pos (show (if n = "" then none else some n) = some n by
              rw [if_neg hz])]
            rw [hl]
            rfl
          · rw [if_neg (show ¬(if dictGet (m.getD []) "name" "" = ""
                then none else some (dictGet (m.getD []) "name" "")) = some n by
              rw [if_neg hz]; simpa using hnn)]
            simp
        | none =>
          dsimp only
          rw [regLookup_insert]
          by_cases hnn : dictGet (m.getD []) "name" "" = n
          · rw [hnn] at hz
            rw [if_pos hnn, hnn, if_pos (show (if n = "" then none else some n) = some n by
              rw [if_neg hz])]
          · rw [if_neg hnn, if_neg (show ¬(if dictGet (m.getD []) "name" "" = ""
                then none else some (dictGet (m.getD []) "name" "")) = some n by
              rw [if_neg hz]; simpa using hnn)]

theorem foldl_state (sd : FsPath) (ex : List FsPath) (l : List Folder)
    (r : Registry) (e : List VErr) :
    l.foldl (processFolder sd ex) (r, e)
      = ((l.foldl (processFolder sd ex) (r, [])).1,
         e ++ (l.foldl (processFolder sd ex) (r, [])).2) := by
  induction l generalizing r e with
  | nil => simp
  | cons f l ih =>
    simp only [List.foldl_cons]
    have hstep : ∀ (st : Registry × List VErr),
        processFolder sd ex st f
          = ((folderStep sd ex st.1 f).1, st.2 ++ (folderStep sd ex st.1 f).2) :=
      fun st => rfl
    rw [hstep (r, e), hstep (r, [])]
    rw [ih ((folderStep sd ex r f).1) (e ++ (folderStep sd ex r f).2),
        ih ((folderStep sd ex r f).1) ([] ++ (folderStep sd ex r f).2)]
    simp

theorem foldl_reg (sd : FsPath) (ex : List FsPath) (l : List Folder)
    (st : Registry × List VErr) (n : String) :
    regLookup ((l.foldl (processFolder sd ex) st).1) n
      = (regLookup st.1 n).or
          ((l.find? (fun g => declaredName g == some n)).map
            (fun g => mdStr sd g.name)) := by
  induction l generalizing st with
  | nil => simp
  | cons f l ih =>
    simp only [List.foldl_cons]
    rw [ih]
    have hfst : (processFolder sd ex st f).1 = (folderStep sd ex st.1 f).1 := rfl
    rw [hfst, folderStep_reg]
    rw [List.find?_cons]
    by_cases hf : declaredName f = some n
    · rw [if_pos hf]
      have hb : (declaredName f == some n) = true := by simpa using hf
      simp only [hb]
      cases regLookup st.1 n <;> simp
    · rw [if_neg hf]
      have hb : (declaredName f == some n) = false := by simpa using hf
      simp only [hb]
      cases regLookup st.1 n <;> simp

theorem folderStep_named {sd : FsPath} {ex : List FsPath} {r : Registry} {f : Folder}
    {text : String} {m : Option Dict} {n : String}
    (hmd : f.skillMd = some text) (hp : parse_frontmatter text = (m, none))
    (hn : dictGet (m.getD []) "name" "" = n) (hne : n ≠ "") :
    folderStep sd ex r f
      = ((match regLookup r n with
          | some _ => r
          | none => regInsert r n (mdStr sd f.name)),
         ((if n ≠ f.name then [VErr.nameMismatch (mdStr sd f.name) n f.name] else [])
           ++ (if !nameMatches n then [VErr.namePattern (mdStr sd f.name) n] else [])
           ++ (match regLookup r n with
               | some first => [VErr.dupName (mdStr sd f.name) n first]
               | none => []))
           ++ (iter_relative_links text).flatMap
                (checkLink (mdStr sd f.name) (sd ++ [f.name]) ex)) := by
  unfold folderStep
  rw [hmd]
  dsimp only
  rw [hp]
  dsimp only
  rw [hn, if_neg hne]
  cases hl : regLookup r n with
  | some first => simp
  | none => simp

/-- Claim C6: a folder whose frontmatter parses and whose non-empty
`name` differs from the folder's own name records exactly one
"does not match folder" error, and the identifier-pattern check and the
cross-folder uniqueness check are still performed on that name
afterwards (a pattern error appears exactly when the pattern fails; a
duplicate error appears exactly when the registry already holds the
name, and otherwise the name is registered): the mismatch is
non-terminal. -/
theorem claim_c6 (sd : FsPath) (ex : List FsPath) (r : Registry) (f : Folder)
    (text : String) (m : Option Dict) (n : String)
    (hmd : f.skillMd = some text)
    (hp : parse_frontmatter text = (m, none))
    (hn : dictGet (m.getD []) "name" "" = n)
    (hne : n ≠ "")
    (hmm : n ≠ f.name) :
    (folderStep sd ex r f).2.filter isMismatchErr
        = [.nameMismatch (mdStr sd f.name) n f.name]
    ∧ (folderStep sd ex r f).2.filter isPatternErr
        = (if nameMatches n then [] else [.namePattern (mdStr sd f.name) n])
    ∧ (match regLookup r n with
       | some first =>
          (folderStep sd ex r f).2.filter isDupErr
              = [.dupName (mdStr sd f.name) n first]
            ∧ (folderStep sd ex r f).1 = r
       | none =>
          (folderStep sd ex r f).2.filter isDupErr = []
            ∧ (folderStep sd ex r f).1 = regInsert r n (mdStr sd f.name)) := by
  have hl1 : ((iter_relative_links text).flatMap
      (checkLink (mdStr sd f.name) (sd ++ [f.name]) ex)).filter isMismatchErr = [] :=
    flatMap_checkLink_filter_nil (fun a b => ⟨rfl, rfl⟩)
  have hl2 : ((iter_relative_links text).flatMap
      (checkLink (mdStr sd f.name) (sd ++ [f.name]) ex)).filter isPatternErr = [] :=
    flatMap_checkLink_filter_nil (fun a b => ⟨rfl, rfl⟩)
  have hl3 : ((iter_relative_links text).flatMap
      (checkLink (mdStr sd f.name) (sd ++ [f.name]) ex)).filter isDupErr = [] :=
    flatMap_checkLink_filter_nil (fun a b => ⟨rfl, rfl⟩)
  rw [folderStep_named hmd hp hn hne]
  cases hl : regLookup r n with
  | some first =>
    refine ⟨?_, ?_, ?_, rfl⟩ <;>
      cases hq : nameMatches n <;>
        simp [List.filter_append, hl1, hl2, hl3, if_pos hmm,
          isMismatchErr, isPatternErr, isDupErr]
  | none =>
    refine ⟨?_, ?_, ?_, rfl⟩ <;>
      cases hq : nameMatches n <;>
        simp [List.filter_append, hl1, hl2, hl3, if_pos hmm,
          isMismatchErr, isPatternErr, isDupErr]

theorem claim_c6_witness :
    ((folderStep ["repo", "skills"] [] []
        ⟨"my-skill", some "---\nname: other-skill\n---"⟩).2.filter isMismatchErr
      = [.nameMismatch "/repo/skills/my-skill/SKILL.md" "other-skill" "my-skill"])
    ∧ ((folderStep ["repo", "skills"] [] []
        ⟨"my-skill", some "---\nname: other-skill\n---"⟩).2.filter isPatternErr = [])
    ∧ ((folderStep ["repo", "skills"] [] []
        ⟨"my-skill", some "---\nname: other-skill\n---"⟩).2.filter isDupErr = [])
    ∧ ((folderStep ["repo", "skills"] [] []
        ⟨"my-skill", some "---\nname: other-skill\n---"⟩).1
      = regInsert [] "other-skill" "/repo/skills/my-skill/SKILL.md") := by
  have h := claim_c6 ["repo", "skills"] [] []
    ⟨"my-skill", some "---\nname: other-skill\n---"⟩
    "---\nname: other-skill\n---" (some [("name", "other-skill")]) "other-skill"
    rfl (by decide) (by decide) (by decide) (by decide)
  exact ⟨h.1, h.2.1.trans (by decide), h.2.2.1, h.2.2.2⟩

/-- Claim C5: when two distinct skill folders declare the same `name`,
the folder processed second in sorted folder order records exactly one
duplicate-name error whose message references the first-processed
folder's document path, and the registry entry for that name keeps the
first folder's path (it is not overwritten); the second folder's errors
appear in `main`'s accumulated list between those of the earlier and
later folders. -/
theorem claim_c5 (fs : SkillsFS) (l1 l2 : List Folder) (f1 f2 : Folder) (n : String)
    (hdir : fs.skillsDirPresent = true)
    (hsort : sortFolders fs.folders = l1 ++ f2 :: l2)
    (hfirst : l1.find? (fun g => declaredName g == some n) = some f1)
    (hf2 : declaredName f2 = some n) :
    ((folderStep (fs.repoRoot ++ ["skills"]) fs.existing
        (l1.foldl (processFolder (fs.repoRoot ++ ["skills"]) fs.existing) ([], [])).1
        f2).2.filter isDupErr
      = [.dupName (mdStr (fs.repoRoot ++ ["skills"]) f2.name) n
          (mdStr (fs.repoRoot ++ ["skills"]) f1.name)])
    ∧ regLookup (folderStep (fs.repoRoot ++ ["skills"]) fs.existing
        (l1.foldl (processFolder (fs.repoRoot ++ ["skills"]) fs.existing) ([], [])).1
        f2).1 n
      = some (mdStr (fs.repoRoot ++ ["skills"]) f1.name)
    ∧ mainErrors fs
      = (l1.foldl (processFolder (fs.repoRoot ++ ["skills"]) fs.existing) ([], [])).2
        ++ (folderStep (fs.repoRoot ++ ["skills"]) fs.existing
              (l1.foldl (processFolder (fs.repoRoot ++ ["skills"]) fs.existing) ([], [])).1
              f2).2
        ++ (l2.foldl (processFolder (fs.repoRoot ++ ["skills"]) fs.existing)
              ((folderStep (fs.repoRoot ++ ["skills"]) fs.existing
                (l1.foldl (processFolder (fs.repoRoot ++ ["skills"]) fs.existing) ([], [])).1
                f2).1, [])).2 := by
  set sd := fs.repoRoot ++ ["skills"] with hsd
  set st := l1.foldl (processFolder sd fs.existing) ([], []) with hst
  have hlook : regLookup st.1 n = some (mdStr sd f1.name) := by
    rw [hst, foldl_reg, hfirst]
    rfl
  obtain ⟨text, m, hmd, hp, hn, hne⟩ := declaredName_some hf2
  have hnamed := @folderStep_named sd fs.existing st.1 f2 text m n hmd hp hn hne
  have hl3 : ((iter_relative_links text).flatMap
      (checkLink (mdStr sd f2.name) (sd ++ [f2.name]) fs.existing)).filter isDupErr = [] :=
    flatMap_checkLink_filter_nil (fun a b => ⟨rfl, rfl⟩)
  refine ⟨?_, ?_, ?_⟩
  · rw [hnamed]
    rw [hlook]
    cases hq : nameMatches n <;>
      simp [List.filter_append, hl3, isDupErr, isMismatchErr, isPatternErr,
        List.filter_cons, List.filter_nil]
  · rw [hnamed, hlook]
    exact hlook
  · rw [mainErrors, if_neg (by simp [hdir]), hsort]
    rw [List.foldl_append, List.foldl_cons]
    rw [← hsd, ← hst]
    rw [show (processFolder sd fs.existing st f2)
        = ((folderStep sd fs.existing st.1 f2).1,
            st.2 ++ (folderStep sd fs.existing st.1 f2).2) from rfl]
    rw [foldl_state]

theorem claim_c5_witness :
    ((folderStep ["repo", "skills"] []
        [("shared-name", "/repo/skills/a/SKILL.md")]
        ⟨"b", some "---\nname: shared-name\n---"⟩).2.filter isDupErr
      = [.dupName "/repo/skills/b/SKILL.md" "shared-name" "/repo/skills/a/SKILL.md"])
    ∧ (regLookup (folderStep ["repo", "skills"] []
        [("shared-name", "/repo/skills/a/SKILL.md")]
        ⟨"b", some "---\nname: shared-name\n---"⟩).1 "shared-name"
      = some "/repo/skills/a/SKILL.md")
    ∧ mainErrors ⟨["repo"], true,
        [⟨"b", some "---\nname: shared-name\n---"⟩,
         ⟨"a", some "---\nname: shared-name\n---"⟩], []⟩
      = [.nameMismatch "/repo/skills/a/SKILL.md" "shared-name" "a",
         .nameMismatch "/repo/skills/b/SKILL.md" "shared-name" "b",
         .dupName "/repo/skills/b/SKILL.md" "shared-name" "/repo/skills/a/SKILL.md"] := by
  have h := claim_c5
    ⟨["repo"], true,
      [⟨"b", some "---\nname: shared-name\n---"⟩,
       ⟨"a", some "---\nname: shared-name\n---"⟩], []⟩
    [⟨"a", some "---\nname: shared-name\n---"⟩] []
    ⟨"a", some "---\nname: shared-name\n---"⟩
    ⟨"b", some "---\nname: shared-name\n---"⟩ "shared-name"
    rfl (by decide) (by decide) (by decide)
  exact ⟨h.1, h.2.1, h.2.2.trans (by decide)⟩
